import Mathlib

/-!
# net-cat: membership table, broadcast and transcript

A shallow embedding of `project-lib/funcs.go` and of `handleConnection` in
`main.go`.

Modelling conventions
* A Go `string` is the list of its code points (`GoString`); string equality
  is list equality.
* A Go `error` is `none` for `nil` and `some text` for an error whose
  `Error()` text is `text`.
* A `net.Conn` is identified by a number.  Every `Write` call is recorded
  together with the result it returned; the results of writes, reads, the
  clock and the file system are inputs of the model, so that every theorem
  quantifies over all behaviours of the peers and of the operating system.
* Lines printed on the server console with `fmt.Println` are not recorded.
* A session runs in steps, and the steps of different sessions interleave.
  In the message loop the prompt write and the read that follows it are two
  steps, so that what other sessions write while the read blocks is recorded
  after the prompt.  One call of `CheckName` is one step, taken when its read
  returns, and one call of `BroadcastMessage` runs inside one step, on the
  table as it is then.
* The Go type `int` is the 64-bit two's complement integer.
-/

namespace NetCat

/-- A Go string, as the list of its code points. -/
abbrev GoString := List Char

/-- A Go error value: `none` is `nil`, `some text` an error with that text. -/
abbrev error := Option GoString

/-- The identity of a `net.Conn`. -/
abbrev Conn := Nat

namespace errors

/-- Go `errors.New`. -/
def New (text : GoString) : error := some text

end errors

namespace strings

/-- Go `unicode.IsSpace`: the code points with the White_Space property. -/
def isSpace (c : Char) : Bool :=
  let n := c.toNat
  n == 0x09 || n == 0x0A || n == 0x0B || n == 0x0C || n == 0x0D || n == 0x20 ||
  n == 0x85 || n == 0xA0 || n == 0x1680 || (0x2000 ≤ n && n ≤ 0x200A) ||
  n == 0x2028 || n == 0x2029 || n == 0x202F || n == 0x205F || n == 0x3000

/-- Go `strings.TrimSpace`: leading and trailing white space removed. -/
def TrimSpace (s : GoString) : GoString :=
  ((s.dropWhile isSpace).reverse.dropWhile isSpace).reverse

/-- Go `strings.ReplaceAll s old new` for a one-character `old`. -/
def ReplaceAll (s : GoString) (old : Char) (new : GoString) : GoString :=
  s.flatMap (fun c => if c = old then new else [c])

end strings

/-! ## Data model -/

/-- A node of the members slice (`type Member struct`). -/
structure Member where
  ID : Int
  Name : GoString
  Connection : Conn
deriving DecidableEq, Repr

/-- One `Write` call: the connection, the bytes, and the error returned. -/
structure WriteCall where
  conn : Conn
  data : GoString
  err : error
deriving DecidableEq, Repr

/-! ## Colours and fixed texts -/

def red : GoString := "\x1b[31m".toList
def green : GoString := "\x1b[32m".toList
def cyan : GoString := "\x1b[36m".toList
def reset : GoString := "\x1b[0m".toList
def boldGreen : GoString := "\x1b[1;32m".toList

/-- The prompt `[time][name]:` written before each read and after each
broadcast message. -/
def promptLine (formatted name : GoString) : GoString :=
  cyan ++ "[".toList ++ formatted ++ "]".toList ++ reset ++ green ++ "[".toList ++ name ++
    "]:".toList ++ reset

/-! ## BroadcastMessage -/

/-- The loop of `BroadcastMessage`, at position `i` of the slice with `rest`
still to visit.  `now i` is the formatted `time.Now()` taken for position `i`;
`wr i 0` and `wr i 1` are the results of the message write and of the prompt
write to the member at position `i`.  Each recorded call carries the position
of the member it was made for. -/
def BroadcastMessage.loop (senderID : Int) (message : GoString) (now : Nat → GoString)
    (wr : Nat → Nat → error) : Nat → List Member → List (Nat × WriteCall)
  | _, [] => []
  | i, member :: rest =>
    if member.ID ≠ senderID then
      match wr i 0 with
      | some e => [(i, ⟨member.Connection, message, some e⟩)]
      | none =>
        match wr i 1 with
        | some e =>
          [(i, ⟨member.Connection, message, none⟩),
           (i, ⟨member.Connection, promptLine (now i) member.Name, some e⟩)]
        | none =>
          (i, ⟨member.Connection, message, none⟩) ::
          (i, ⟨member.Connection, promptLine (now i) member.Name, none⟩) ::
          BroadcastMessage.loop senderID message now wr (i + 1) rest
    else BroadcastMessage.loop senderID message now wr (i + 1) rest

/-- The Go function `BroadcastMessage(senderID, message, members)`: the `Write`
calls it performs, in order. -/
def BroadcastMessage (senderID : Int) (message : GoString) (members : List Member)
    (now : Nat → GoString) (wr : Nat → Nat → error) : List (Nat × WriteCall) :=
  BroadcastMessage.loop senderID message now wr 0 members

/-! ## The transcript file `chat.log`

The file is `none` while it does not exist and `some content` otherwise.  Each
operation takes the fault the operating system injects into it. -/

/-- What can go wrong inside `LogMessages`: nothing, `os.OpenFile` fails, or
`WriteString` fails after `written` code points have reached the file. -/
inductive LogFault where
  | ok
  | openFails (e : GoString)
  | writeFails (written : Nat) (e : GoString)
deriving DecidableEq, Repr

/-- What can go wrong inside `ClearMessageHistory`: nothing, `os.WriteFile`
fails before truncating, or it fails after the truncation. -/
inductive ClearFault where
  | ok
  | openFails (e : GoString)
  | lateFails (e : GoString)
deriving DecidableEq, Repr

/-- The Go function `LogMessages`: open with `O_APPEND|O_CREATE|O_WRONLY`, write the
message at the end.  Returns the file afterwards and the error. -/
def LogMessages (fault : LogFault) (message : GoString) (file : Option GoString) :
    Option GoString × error :=
  match fault with
  | .openFails e => (file, some e)
  | .writeFails written e => (some (file.getD [] ++ message.take written), some e)
  | .ok => (some (file.getD [] ++ message), none)

/-- The Go function `GetMessageHistory`: `os.ReadFile`; the empty string with the error
when the read fails or the file does not exist. -/
def GetMessageHistory (fault : error) (file : Option GoString) : GoString × error :=
  match fault with
  | some e => ([], some e)
  | none =>
    match file with
    | none => ([], some "open chat.log: no such file or directory".toList)
    | some content => (content, none)

/-- The Go function `ClearMessageHistory`: `os.WriteFile` of the empty byte string. -/
def ClearMessageHistory (fault : ClearFault) (file : Option GoString) :
    Option GoString × error :=
  match fault with
  | .openFails e => (file, some e)
  | .lateFails e => (some [], some e)
  | .ok => (some [], none)

/-- A sequence of `LogMessages` calls, each with its fault and its message: the
file afterwards and the errors the calls returned, in order. -/
def logAll : List (LogFault × GoString) → Option GoString → Option GoString × List error
  | [], file => (file, [])
  | (fault, message) :: rest, file =>
    let r := LogMessages fault message file
    let after := logAll rest r.1
    (after.1, r.2 :: after.2)

/-! ## CheckName -/

/-- What the peer and the transport do during one call of `CheckName`: the
result of the prompt write, the bytes `buf[:n]` the read returned, and the
error the read returned. -/
structure PromptIO where
  writeErr : error
  input : GoString
  readErr : error

/-- What a call of `CheckName` leaves behind: the two returned values, the
members slice afterwards, and the writes performed. -/
structure CheckNameResult where
  name : GoString
  err : error
  members : List Member
  writes : List WriteCall
deriving DecidableEq, Repr

/-- The name prompt. -/
def CheckName.prompt : GoString := boldGreen ++ "[ENTER YOUR NAME]:".toList ++ reset

/-- The scan `for i := 0; i < len(*members); i++` of `CheckName`, which sets
`alreadyExists` when a member carries the name. -/
def CheckName.alreadyExists (name : GoString) (members : List Member) : Bool :=
  members.foldl (fun found m => if m.Name = name then true else found) false

/-- The Go function `CheckName`.  A failed read is only printed: the function
goes on with the bytes `buf[:n]` it has. -/
def CheckName (connection : Conn) (members : List Member) (io : PromptIO) : CheckNameResult :=
  match io.writeErr with
  | some e =>
    ⟨[], errors.New "writingError".toList, members, [⟨connection, CheckName.prompt, some e⟩]⟩
  | none =>
    let name := strings.TrimSpace (strings.ReplaceAll io.input '\n' [])
    let writes : List WriteCall := [⟨connection, CheckName.prompt, none⟩]
    if CheckName.alreadyExists name members then
      ⟨[], errors.New "alreadyExistsError".toList, members, writes⟩
    else if name = [] then
      ⟨[], errors.New "emptyNameError".toList, members, writes⟩
    else ⟨name, none, members, writes⟩

/-- The notice the callers of `CheckName` send for an error (`handleConnection`
lines 95-101 and `Rename` lines 223-229). -/
def retryNotice (e : GoString) : GoString :=
  if e = "alreadyExistsError".toList then
    red ++ "You chose a name that is already used. Please try again.\n".toList ++ reset
  else if e = "emptyNameError".toList then
    red ++ "You chose an empty name. Please try again.\n".toList ++ reset
  else red ++ "Please try again.\n".toList ++ reset

/-- One turn of the loop `for memberName == ""` shared by `handleConnection`
and `Rename`: call `CheckName`, and on an error send the notice (its result,
`noticeErr`, is ignored by the code). -/
def promptOnce (connection : Conn) (members : List Member) (io : PromptIO) (noticeErr : error) :
    CheckNameResult :=
  let r := CheckName connection members io
  match r.err with
  | none => r
  | some e => { r with writes := r.writes ++ [⟨connection, retryNotice e, noticeErr⟩] }

/-! ## AddMember -/

/-- Where a call of `AddMember` stands: at the guard of the waiting loop
(line 179), past the guard and about to take the lock and append (line 188),
or returned. -/
inductive AddMember.PC where
  | polling
  | locking
  | returned (err : error)
deriving DecidableEq, Repr

/-- The notice sent while the room is full. -/
def AddMember.notice : GoString :=
  red ++ "There is no empty place in this chat room. Please wait until a spot is free.\n".toList ++
    reset

/-- One step of `AddMember(name, id, connection, members, mu)`.  At the guard
the length of the slice is read without the lock; `noticeErr` is the result
of the notice write when the room is found full. -/
def AddMember.step (name : GoString) (id : Int) (connection : Conn) (noticeErr : error)
    (members : List Member) : AddMember.PC → List Member × AddMember.PC × List WriteCall
  | .polling =>
    if members.length = 10 then
      match noticeErr with
      | some e =>
        (members, .returned (errors.New ("write error: ".toList ++ e)),
          [⟨connection, AddMember.notice, some e⟩])
      | none => (members, .polling, [⟨connection, AddMember.notice, none⟩])
    else (members, .locking, [])
  | .locking => (members ++ [⟨id, name, connection⟩], .returned none, [])
  | .returned err => (members, .returned err, [])

/-! ## RemoveMember -/

/-- The loop of `RemoveMember`: `done` is `(*members)[0:i]`, the second list is
`(*members)[i:]`. -/
def RemoveMember.loop (id : Int) : List Member → List Member → List Member
  | done, [] => done
  | done, member :: rest =>
    if id = member.ID then done ++ rest else RemoveMember.loop id (done ++ [member]) rest

/-- The Go function `RemoveMember(id, members, mu)`: the members slice afterwards. -/
def RemoveMember (id : Int) (members : List Member) : List Member :=
  RemoveMember.loop id [] members

/-! ## Rename -/

/-- Where a call of `Rename` stands: before the search loop, inside the prompt
loop with the index `i` the search stopped at, holding a valid name and about
to take the lock and store it at index `i`, returned, or dead (a run-time
panic or fatal error, which ends the whole process). -/
inductive Rename.PC where
  | searching
  | prompting (i : Nat)
  | locking (i : Nat) (memberName : GoString)
  | returned (memberName : GoString)
  | crashed
deriving DecidableEq, Repr

/-- The search `for i := 0; i < len(*members); i++` of `Rename`, from index `i`:
the first index whose member has the id. -/
def Rename.search (id : Int) : Nat → List Member → Option Nat
  | _, [] => none
  | i, member :: rest => if id = member.ID then some i else Rename.search id (i + 1) rest

/-- The assignment `(*members)[i].Name = memberName`; `none` when the index is
out of range (a run-time panic). -/
def Rename.store (i : Nat) (memberName : GoString) (members : List Member) :
    Option (List Member) :=
  match members[i]? with
  | none => none
  | some member => some (members.set i { member with Name := memberName })

/-- One step of `Rename(id, members, mu, connection)`.  When the search finds no
member the function returns through its deferred `mu.Unlock()` with the mutex
not held, which is a fatal error. -/
def Rename.step (id : Int) (connection : Conn) (io : PromptIO) (noticeErr : error)
    (members : List Member) : Rename.PC → List Member × Rename.PC × List WriteCall
  | .searching =>
    match Rename.search id 0 members with
    | some i => (members, .prompting i, [])
    | none => (members, .crashed, [])
  | .prompting i =>
    let r := promptOnce connection members io noticeErr
    (r.members, if r.name = [] then .prompting i else .locking i r.name, r.writes)
  | .locking i memberName =>
    match Rename.store i memberName members with
    | some members' => (members', .returned memberName, [])
    | none => (members, .crashed, [])
  | .returned memberName => (members, .returned memberName, [])
  | .crashed => (members, .crashed, [])

/-! ## Greeting and help texts -/

/-- Go arithmetic on `int`: the result of an addition wrapped to 64 bits,
two's complement. -/
def wrapInt (x : Int) : Int :=
  (x + 9223372036854775808) % 18446744073709551616 - 9223372036854775808

/-- The Go function `GenerateGreeting`. -/
def GenerateGreeting : GoString :=
  boldGreen ++ "Welcome to TCP-Chat!\n".toList ++ reset ++
  cyan ++ "         _nnnn_\n".toList ++
  "        dGGGGMMb\n".toList ++
  "       @p~qp~~qMb\n".toList ++
  "       M|@||@) M|\n".toList ++
  "       @,----.JM|\n".toList ++
  "      JS^\\__/  qKL\n".toList ++
  "     dZP        qKRb\n".toList ++
  "    dZP          qKKb\n".toList ++
  "   fZP            SMMb\n".toList ++
  "   HZM            MMMM\n".toList ++
  "   FqM            MMMM\n".toList ++
  "__| \".        |\\dS\"qML\n".toList ++
  " |    `.       | `' \\Zq\n".toList ++
  "_)      \\.___.,|     .'\n".toList ++
  "\\____   )MMMMMP|   .'\n".toList ++
  "     `-'       `--'\n".toList ++ reset

/-- The Go function `Help`. -/
def Help : GoString :=
  "\x1b[1;36m".toList ++ "\n\nWelcome to the TCP-Chat application!\n".toList ++ reset ++
  "\tThis is a simple project used to establish a connection \n\tbetween different users in the LAN or on the same machine.\n\n".toList ++
  "\x1b[1;33m".toList ++ "Options:\n".toList ++ reset ++
  "\t@help        ==> Show this help window\n".toList ++
  "\t@exit        ==> Disconnect from the chat\n".toList ++
  "\t@rename name ==> Change your display name\n\n".toList

/-- The join notice of line 121. -/
def joinNotice (memberName : GoString) : GoString :=
  "\n".toList ++ green ++ memberName ++ " has joined our chat...\n".toList ++ reset

/-- The leave notice of lines 152 and 169. -/
def leaveNotice (memberName : GoString) : GoString :=
  "\n".toList ++ red ++ memberName ++ " has left our chat...\n".toList ++ reset

/-- The chat line of line 158: the prompt of the sender followed by the bytes
read, untrimmed. -/
def chatLine (formatted memberName input : GoString) : GoString :=
  promptLine formatted memberName ++ input

/-! ## handleConnection as a step machine

The shared variables of `main.go` and the file form the `World`; a `Session` is
one running `handleConnection`.  A step is the code a session runs between two
points where other sessions can run: one turn of a prompt loop, one poll of
the capacity loop, one lock-protected update. -/

/-- The shared state: the globals `members` and `latestID`, the file `chat.log`,
every `Write` call made so far, and whether the process has died. -/
structure World where
  members : List Member
  latestID : Int
  chatLog : Option GoString
  out : List WriteCall
  crashed : Bool
deriving DecidableEq, Repr

/-- Where a session stands in `handleConnection`. -/
inductive PC where
  /-- Before the greeting (line 81). -/
  | connecting
  /-- In the loop `for memberName == ""` (line 92). -/
  | naming
  /-- Inside the call of `AddMember` (line 105). -/
  | inAddMember (a : AddMember.PC)
  /-- History replay and join notice (lines 109-121). -/
  | replaying
  /-- At the head of the message loop (line 123), before the prompt. -/
  | active
  /-- In the message loop, blocked in `conn.Read` (line 135); `formatted` is
  the time taken at the head of this turn (line 125). -/
  | reading (formatted : GoString)
  /-- Inside the call of `Rename` (line 156). -/
  | inRename (r : Rename.PC)
  /-- After the message loop (lines 169-170). -/
  | closing
  /-- Returned. -/
  | closed
deriving DecidableEq, Repr

/-- The local variables of one `handleConnection`. -/
structure Session where
  conn : Conn
  memberID : Int
  memberName : GoString
  pc : PC
deriving DecidableEq, Repr

/-- What the outside does during one step of a session: the formatted clock,
the results of the (at most two) writes on the session's own connection, the
bytes and the error of the read, the clock and the write results inside
`BroadcastMessage`, and the faults of the file operations.  A step uses the
fields its code reaches and ignores the others. -/
structure Env where
  now : GoString := []
  w0 : error := none
  w1 : error := none
  input : GoString := []
  readErr : error := none
  bnow : Nat → GoString := fun _ => []
  bwr : Nat → Nat → error := fun _ _ => none
  histFault : error := none
  logFault : LogFault := LogFault.ok

/-- The writes of a broadcast, as they appear on the wire. -/
def broadcastWrites (senderID : Int) (message : GoString) (members : List Member) (env : Env) :
    List WriteCall :=
  (BroadcastMessage senderID message members env.bnow env.bwr).map Prod.snd

/-- The dispatch of one line read in the message loop (lines 141-166);
`formatted` is the time taken at the head of the turn.  Every case but
"@exit" and "@rename" goes back to the head of the loop. -/
def handleConnection.dispatch (formatted : GoString) (env : Env) (w : World) (s : Session) :
    World × Session :=
  let memberMessage := strings.TrimSpace env.input
  if memberMessage ≠ [] then
    if memberMessage = "@help".toList then
      ({ w with out := w.out ++ [⟨s.conn, Help, env.w0⟩] }, { s with pc := .active })
    else if memberMessage = "@exit".toList then
      ({ w with
          out := w.out ++ broadcastWrites s.memberID (leaveNotice s.memberName) w.members env,
          members := RemoveMember s.memberID w.members },
       { s with pc := .closed })
    else if memberMessage = "@rename".toList then
      (w, { s with pc := .inRename .searching })
    else
      let message := chatLine formatted s.memberName env.input
      ({ w with
          out := w.out ++ broadcastWrites s.memberID ("\n".toList ++ message) w.members env,
          chatLog := (LogMessages env.logFault message w.chatLog).1 },
       { s with pc := .active })
  else (w, { s with pc := .active })

/-- One step of `handleConnection(conn)`. -/
def handleConnection.step (env : Env) (w : World) (s : Session) : World × Session :=
  if w.crashed then (w, s) else
  match s.pc with
  | .connecting =>
    match env.w0 with
    | some e => ({ w with out := w.out ++ [⟨s.conn, GenerateGreeting, some e⟩] },
                 { s with pc := .closed })
    | none => ({ w with out := w.out ++ [⟨s.conn, GenerateGreeting, none⟩],
                        latestID := wrapInt (w.latestID + 1) },
               { s with memberID := w.latestID, memberName := [], pc := .naming })
  | .naming =>
    let r := promptOnce s.conn w.members ⟨env.w0, env.input, env.readErr⟩ env.w1
    ({ w with members := r.members, out := w.out ++ r.writes },
     { s with memberName := r.name,
              pc := if r.name = [] then .naming else .inAddMember .polling })
  | .inAddMember a =>
    match AddMember.step s.memberName s.memberID s.conn env.w0 w.members a with
    | (members, .returned none, writes) =>
      ({ w with members := members, out := w.out ++ writes }, { s with pc := .replaying })
    | (members, .returned (some _), writes) =>
      ({ w with members := members, out := w.out ++ writes }, { s with pc := .closed })
    | (members, a', writes) =>
      ({ w with members := members, out := w.out ++ writes }, { s with pc := .inAddMember a' })
  | .replaying =>
    match GetMessageHistory env.histFault w.chatLog with
    | (_, some _) =>
      ({ w with members := RemoveMember s.memberID w.members }, { s with pc := .closed })
    | (history, none) =>
      match env.w0 with
      | some e =>
        ({ w with out := w.out ++ [⟨s.conn, history, some e⟩],
                  members := RemoveMember s.memberID w.members },
         { s with pc := .closed })
      | none =>
        ({ w with out := w.out ++ [⟨s.conn, history, none⟩] ++
                    broadcastWrites s.memberID (joinNotice s.memberName) w.members env },
         { s with pc := .active })
  | .active =>
    match env.w0 with
    | some e =>
      ({ w with out := w.out ++ [⟨s.conn, promptLine env.now s.memberName, some e⟩] },
       { s with pc := .closing })
    | none =>
      ({ w with out := w.out ++ [⟨s.conn, promptLine env.now s.memberName, none⟩] },
       { s with pc := .reading env.now })
  | .reading formatted =>
    match env.readErr with
    | some _ => (w, { s with pc := .closing })
    | none => handleConnection.dispatch formatted env w s
  | .inRename r =>
    match Rename.step s.memberID s.conn ⟨env.w0, env.input, env.readErr⟩ env.w1 w.members r with
    | (members, .returned memberName, writes) =>
      ({ w with members := members, out := w.out ++ writes },
       { s with memberName := memberName, pc := .active })
    | (members, .crashed, writes) =>
      ({ w with members := members, out := w.out ++ writes, crashed := true },
       { s with pc := .inRename .crashed })
    | (members, r', writes) =>
      ({ w with members := members, out := w.out ++ writes }, { s with pc := .inRename r' })
  | .closing =>
    ({ w with
        out := w.out ++ broadcastWrites s.memberID (leaveNotice s.memberName) w.members env,
        members := RemoveMember s.memberID w.members },
     { s with pc := .closed })
  | .closed => (w, s)

/-- The server: the shared world and the sessions the accept loop has started. -/
structure System where
  world : World
  sessions : List Session
deriving DecidableEq, Repr

/-- The world after `main` has cleared the transcript, with `n` accepted
connections numbered `0 .. n-1`, none of which has run yet. -/
def System.start (n : Nat) : System :=
  { world := { members := [], latestID := 0, chatLog := some [], out := [], crashed := false },
    sessions := (List.range n).map (fun c => ⟨c, 0, [], .connecting⟩) }

/-- Session number `i` takes one step. -/
def System.step (sys : System) (i : Nat) (env : Env) : System :=
  match sys.sessions[i]? with
  | none => sys
  | some s =>
    let r := handleConnection.step env sys.world s
    { world := r.1, sessions := sys.sessions.set i r.2 }

/-- A schedule: which session steps, and what the outside does meanwhile. -/
def System.run (sys : System) : List (Nat × Env) → System
  | [] => sys
  | (i, env) :: rest => System.run (System.step sys i env) rest

/-- The environment in which the peer sends `text` and nothing fails. -/
def Env.typing (text : String) : Env := { input := text.toList }

/-- The environment in which nothing fails and nothing is read. -/
def Env.quiet : Env := {}

/-! ## Schedules used in the scenarios -/

/-- Session `i` is greeted and then answers the name prompt with `text`. -/
def Schedule.connect (i : Nat) (text : String) : List (Nat × Env) :=
  [(i, Env.quiet), (i, Env.typing text)]

/-- Session `i` runs the two steps of `AddMember`: the guard, then the append. -/
def Schedule.addMember (i : Nat) : List (Nat × Env) :=
  [(i, Env.quiet), (i, Env.quiet)]

/-- Session `i` connects, is named by `text`, is added, and gets the history. -/
def Schedule.join (i : Nat) (text : String) : List (Nat × Env) :=
  Schedule.connect i text ++ Schedule.addMember i ++ [(i, Env.quiet)]

/-- Sessions 0 to 8 connect one after the other under the names "a" to "i" and
are added to the table. -/
def Schedule.nineMembers : List (Nat × Env) :=
  Schedule.connect 0 "a\n" ++ Schedule.addMember 0 ++
  Schedule.connect 1 "b\n" ++ Schedule.addMember 1 ++
  Schedule.connect 2 "c\n" ++ Schedule.addMember 2 ++
  Schedule.connect 3 "d\n" ++ Schedule.addMember 3 ++
  Schedule.connect 4 "e\n" ++ Schedule.addMember 4 ++
  Schedule.connect 5 "f\n" ++ Schedule.addMember 5 ++
  Schedule.connect 6 "g\n" ++ Schedule.addMember 6 ++
  Schedule.connect 7 "h\n" ++ Schedule.addMember 7 ++
  Schedule.connect 8 "i\n" ++ Schedule.addMember 8

/-- After `Schedule.nineMembers`, sessions 9 and 10 connect under the names "j"
and "k" and both evaluate the guard of `AddMember` before either appends. -/
def Schedule.twoPastTheGuard : List (Nat × Env) :=
  Schedule.nineMembers ++ Schedule.connect 9 "j\n" ++ Schedule.connect 10 "k\n" ++
    [(9, Env.quiet), (10, Env.quiet)]

/-- Ann, bob and cat join; bob is prompted and asks for a rename, and `Rename`
finds him at index 1; ann is prompted and leaves; bob then answers the name
prompt with "rob" and `Rename` stores the name. -/
def Schedule.renameWhileAnnLeaves : List (Nat × Env) :=
  Schedule.join 0 "ann\n" ++ Schedule.join 1 "bob\n" ++ Schedule.join 2 "cat\n" ++
    [(1, Env.quiet), (1, Env.typing "@rename\n"), (1, Env.quiet),
     (0, Env.quiet), (0, Env.typing "@exit\n"),
     (1, Env.typing "rob\n"), (1, Env.quiet)]

/-- Ann (id 0), bob (id 1) and cat (id 2) join; each is then sent the prompt of
a first turn, cat's at 12:00, and waits for a line. -/
def Schedule.catReadyToSpeak : List (Nat × Env) :=
  Schedule.join 0 "ann\n" ++ Schedule.join 1 "bob\n" ++ Schedule.join 2 "cat\n" ++
    [(0, Env.quiet), (1, Env.quiet), (2, { now := "12:00".toList })]

/-- The peer sends "hello"; inside the broadcast the message write to the
member at position 0 fails with EPIPE, every other write would succeed. -/
def Env.helloWhileFirstMemberIsUnreachable : Env :=
  { input := "hello\n".toList,
    bwr := fun i n => if i = 0 ∧ n = 0 then some "EPIPE".toList else none }

/-- One session takes a step for each environment of the list, in order, with
no other session running in between. -/
def handleConnection.steps : List Env → World → Session → World × Session
  | [], w, s => (w, s)
  | env :: rest, w, s =>
    handleConnection.steps rest (handleConnection.step env w s).1 (handleConnection.step env w s).2

/-- The peer is gone: every write fails with EPIPE and the read returns no byte
and the error EOF. -/
def Env.deadPeer : Env :=
  { w0 := some "EPIPE".toList, w1 := some "EPIPE".toList, readErr := some "EOF".toList }

/-! ## BroadcastMessage: who is written to -/

/-- Every write of the broadcast loop started at position `i` is made for a
member of the remaining slice whose ID differs from `senderID`, on that
member's connection. -/
theorem BroadcastMessage.loop_recipient (senderID : Int) (message : GoString)
    (now : Nat → GoString) (wr : Nat → Nat → error) :
    ∀ (rest : List Member) (i : Nat) (p : Nat × WriteCall),
      p ∈ BroadcastMessage.loop senderID message now wr i rest →
      ∃ k m, p.1 = i + k ∧ rest[k]? = some m ∧ m.ID ≠ senderID ∧ p.2.conn = m.Connection := by
  intro rest
  induction rest with
  | nil => intro i p hp; simp [BroadcastMessage.loop] at hp
  | cons member rest ih =>
    intro i p hp
    unfold BroadcastMessage.loop at hp
    by_cases hid : member.ID = senderID
    · simp only [hid, ne_eq, not_true_eq_false, if_false] at hp
      obtain ⟨k, m, h1, h2, h3, h4⟩ := ih (i + 1) p hp
      exact ⟨k + 1, m, by omega, by simpa using h2, h3, h4⟩
    · simp only [ne_eq, hid, not_false_eq_true, if_true] at hp
      have here : ∀ d e, p = (i, (⟨member.Connection, d, e⟩ : WriteCall)) →
          ∃ k m, p.1 = i + k ∧ (member :: rest)[k]? = some m ∧ m.ID ≠ senderID ∧
            p.2.conn = m.Connection := by
        intro d e h
        exact ⟨0, member, by simp [h], by simp, hid, by simp [h]⟩
      cases h0 : wr i 0 with
      | some e =>
        simp only [h0, List.mem_singleton] at hp
        exact here _ _ hp
      | none =>
        simp only [h0] at hp
        cases h1 : wr i 1 with
        | some e =>
          simp only [h1, List.mem_cons, List.mem_singleton, List.not_mem_nil, or_false] at hp
          rcases hp with hp | hp
          · exact here _ _ hp
          · exact here _ _ hp
        | none =>
          simp only [h1, List.mem_cons] at hp
          rcases hp with hp | hp | hp
          · exact here _ _ hp
          · exact here _ _ hp
          · obtain ⟨k, m, h1, h2, h3, h4⟩ := ih (i + 1) p hp
            exact ⟨k + 1, m, by omega, by simpa using h2, h3, h4⟩

/-- C3: for every member list, sender id, message, clock and pattern of write
results, every `Write` call of `BroadcastMessage` is made for a member whose ID
differs from `senderID`, on that member's connection; no call is made for a
position of the slice whose member has `ID = senderID`; and a connection held
only by members with `ID = senderID` receives no write at all. -/
theorem BroadcastMessage_never_writes_to_sender (senderID : Int) (message : GoString)
    (members : List Member) (now : Nat → GoString) (wr : Nat → Nat → error) :
    (∀ p ∈ BroadcastMessage senderID message members now wr,
      ∃ m, members[p.1]? = some m ∧ m.ID ≠ senderID ∧ p.2.conn = m.Connection) ∧
    (∀ i m, members[i]? = some m → m.ID = senderID →
      ∀ p ∈ BroadcastMessage senderID message members now wr, p.1 ≠ i) ∧
    (∀ m ∈ members, m.ID = senderID →
      (∀ m' ∈ members, m'.Connection = m.Connection → m'.ID = senderID) →
      ∀ p ∈ BroadcastMessage senderID message members now wr, p.2.conn ≠ m.Connection) := by
  have key : ∀ p ∈ BroadcastMessage senderID message members now wr,
      ∃ m, members[p.1]? = some m ∧ m.ID ≠ senderID ∧ p.2.conn = m.Connection := by
    intro p hp
    obtain ⟨k, m, h1, h2, h3, h4⟩ :=
      BroadcastMessage.loop_recipient senderID message now wr members 0 p hp
    refine ⟨m, ?_, h3, h4⟩
    have : p.1 = k := by omega
    rw [this]; exact h2
  refine ⟨key, ?_, ?_⟩
  · intro i m hm hid p hp hpi
    obtain ⟨m', h1, h2, _⟩ := key p hp
    rw [hpi, hm] at h1
    cases h1
    exact h2 hid
  · intro m _ hid hown p hp hconn
    obtain ⟨m', h1, h2, h3⟩ := key p hp
    have hmem : m' ∈ members := List.getElem?_mem h1
    exact h2 (hown m' hmem (by rw [← h3, hconn]))

/-- C3 at a concrete room: ann (id 0) sends, the write of bob's prompt fails;
nothing is written on ann's connection 0. -/
theorem BroadcastMessage_never_writes_to_sender_witness :
    (BroadcastMessage 0 "hi".toList
        [⟨0, "ann".toList, 0⟩, ⟨1, "bob".toList, 1⟩, ⟨2, "cat".toList, 2⟩]
        (fun _ => "12:00".toList)
        (fun i k => if i = 1 ∧ k = 1 then some "EPIPE".toList else none)).length = 2 ∧
    ∀ p ∈ BroadcastMessage 0 "hi".toList
        [⟨0, "ann".toList, 0⟩, ⟨1, "bob".toList, 1⟩, ⟨2, "cat".toList, 2⟩]
        (fun _ => "12:00".toList)
        (fun i k => if i = 1 ∧ k = 1 then some "EPIPE".toList else none),
      p.2.conn ≠ 0 :=
  ⟨by decide,
   (BroadcastMessage_never_writes_to_sender 0 "hi".toList
    [⟨0, "ann".toList, 0⟩, ⟨1, "bob".toList, 1⟩, ⟨2, "cat".toList, 2⟩]
    (fun _ => "12:00".toList)
    (fun i k => if i = 1 ∧ k = 1 then some "EPIPE".toList else none)).2.2
    ⟨0, "ann".toList, 0⟩ (by decide) rfl (by decide)⟩

/-! ## BroadcastMessage: a failed write -/

/-- C4, the code at a failing input: nobody with id 0 is in the room, the
message write to ann (position 0) fails and every other write would succeed.
`BroadcastMessage` makes that one failed call and returns: bob, who comes
later in the slice and whose id differs from `senderID`, is written neither
the message nor his prompt. -/
theorem BroadcastMessage_stops_at_first_failed_write :
    BroadcastMessage 0 "hi".toList [⟨1, "ann".toList, 1⟩, ⟨2, "bob".toList, 2⟩]
        (fun _ => "12:00".toList)
        (fun i k => if i = 0 ∧ k = 0 then some "EPIPE".toList else none)
      = [(0, ⟨1, "hi".toList, some "EPIPE".toList⟩)] := by
  decide

/-! ## CheckName -/

/-- The scan of `CheckName` finds the name exactly when a member carries it. -/
theorem CheckName.alreadyExists_iff (name : GoString) (members : List Member) :
    CheckName.alreadyExists name members = true ↔ ∃ m ∈ members, m.Name = name := by
  unfold CheckName.alreadyExists
  have gen : ∀ (ms : List Member) (acc : Bool),
      ms.foldl (fun found m => if m.Name = name then true else found) acc = true ↔
        (acc = true ∨ ∃ m ∈ ms, m.Name = name) := by
    intro ms
    induction ms with
    | nil => intro acc; simp
    | cons m ms ih =>
      intro acc
      rw [List.foldl_cons, ih]
      by_cases h : m.Name = name
      · simp [h]
      · simp [h]
  simpa using gen members false

/-- Replacing every newline by the empty string removes the newlines. -/
theorem strings.ReplaceAll_newline (s : GoString) :
    strings.ReplaceAll s '\n' [] = s.filter (fun c => c ≠ '\n') := by
  unfold strings.ReplaceAll
  induction s with
  | nil => rfl
  | cons c cs ih =>
    by_cases h : c = '\n'
    · simp [List.flatMap_cons, h, ih]
    · simp [List.flatMap_cons, h, ih]

/-- C5, counterexample: the table holds a member whose Name is empty and the
peer sends a bare newline.  The computed name is empty, yet `CheckName` fails
with alreadyExistsError and not with emptyNameError. -/
theorem CheckName_empty_name_reported_as_taken :
    strings.TrimSpace (strings.ReplaceAll "\n".toList '\n' []) = [] ∧
    (CheckName 1 [⟨0, [], 0⟩] ⟨none, "\n".toList, none⟩).err
      = errors.New "alreadyExistsError".toList ∧
    (CheckName 1 [⟨0, [], 0⟩] ⟨none, "\n".toList, none⟩).err
      ≠ errors.New "emptyNameError".toList := by
  decide

/-- C5, amended: for every table and every input read after a successful
prompt write, with `name` the input without its newlines and trimmed,
`CheckName` looks for the name in the table first: if a member carries it
(also when it is empty) the call fails with alreadyExistsError; otherwise, if
it is empty, with emptyNameError; otherwise it returns the name and no
error.  The table is unchanged in every case. -/
theorem CheckName_validation (connection : Conn) (members : List Member) (io : PromptIO)
    (hw : io.writeErr = none) (hr : io.readErr = none) :
    let name := strings.TrimSpace (io.input.filter (fun c => c ≠ '\n'))
    let r := CheckName connection members io
    r.members = members ∧
    ((∃ m ∈ members, m.Name = name) →
      r.name = [] ∧ r.err = errors.New "alreadyExistsError".toList) ∧
    ((¬ ∃ m ∈ members, m.Name = name) → name = [] →
      r.name = [] ∧ r.err = errors.New "emptyNameError".toList) ∧
    ((¬ ∃ m ∈ members, m.Name = name) → name ≠ [] → r.name = name ∧ r.err = none) := by
  intro name r
  have _ := hr
  have hname : strings.TrimSpace (strings.ReplaceAll io.input '\n' []) = name := by
    rw [strings.ReplaceAll_newline]
  by_cases hex : ∃ m ∈ members, m.Name = name
  · have hb : CheckName.alreadyExists name members = true :=
      (CheckName.alreadyExists_iff name members).2 hex
    have hr' : r = ⟨[], errors.New "alreadyExistsError".toList, members,
        [⟨connection, CheckName.prompt, none⟩]⟩ := by
      show CheckName connection members io = _
      simp [CheckName, hw, hname, hb]
    rw [hr']
    exact ⟨rfl, fun _ => ⟨rfl, rfl⟩, fun h => absurd hex h, fun h => absurd hex h⟩
  · have hb : CheckName.alreadyExists name members = false := by
      cases h : CheckName.alreadyExists name members with
      | false => rfl
      | true => exact absurd ((CheckName.alreadyExists_iff name members).1 h) hex
    by_cases hempty : name = []
    · have hr' : r = ⟨[], errors.New "emptyNameError".toList, members,
          [⟨connection, CheckName.prompt, none⟩]⟩ := by
        show CheckName connection members io = _
        simp only [CheckName, hw, hname, hb, Bool.false_eq_true, if_false]
        simp [hempty]
      rw [hr']
      exact ⟨rfl, fun h => absurd h hex, fun _ _ => ⟨rfl, rfl⟩, fun _ h => absurd hempty h⟩
    · have hr' : r = ⟨name, none, members, [⟨connection, CheckName.prompt, none⟩]⟩ := by
        show CheckName connection members io = _
        simp only [CheckName, hw, hname, hb, Bool.false_eq_true, if_false]
        simp [hempty]
      rw [hr']
      exact ⟨rfl, fun h => absurd h hex, fun _ h => absurd h hempty, fun _ _ => ⟨rfl, rfl⟩⟩

/-- C5, amended, at a concrete table: bob is in the room and the peer sends
" bob \n", then "\n", then "rob\n". -/
theorem CheckName_validation_witness :
    (CheckName 7 [⟨0, "bob".toList, 0⟩] ⟨none, " bob \n".toList, none⟩).err
      = errors.New "alreadyExistsError".toList ∧
    (CheckName 7 [⟨0, "bob".toList, 0⟩] ⟨none, "\n".toList, none⟩).err
      = errors.New "emptyNameError".toList ∧
    (CheckName 7 [⟨0, "bob".toList, 0⟩] ⟨none, "rob\n".toList, none⟩).name = "rob".toList :=
  ⟨((CheckName_validation 7 [⟨0, "bob".toList, 0⟩] ⟨none, " bob \n".toList, none⟩ rfl rfl).2.1
      (by decide)).2,
   ((CheckName_validation 7 [⟨0, "bob".toList, 0⟩] ⟨none, "\n".toList, none⟩ rfl rfl).2.2.1
      (by decide) (by decide)).2,
   ((CheckName_validation 7 [⟨0, "bob".toList, 0⟩] ⟨none, "rob\n".toList, none⟩ rfl rfl).2.2.2
      (by decide) (by decide)).1⟩

/-! ## The naming loop of handleConnection -/

/-- C6, the code at a failing input: one connection on a fresh server.  A
failed prompt write makes `CheckName` return writingError; a failed read makes
it return emptyNameError, the error of an empty answer.  After the greeting
the peer goes away: three turns of the naming loop run, each calls `CheckName`
(three prompt writes are attempted), and the session is still in the loop.
And when, after one failed prompt write, the peer answers "alice", the session
is added to the table. -/
theorem naming_loop_retries_after_failed_prompt :
    (CheckName 0 [] ⟨some "EPIPE".toList, [], none⟩).err = errors.New "writingError".toList ∧
    (CheckName 0 [] ⟨none, [], some "EOF".toList⟩).err = errors.New "emptyNameError".toList ∧
    (((System.start 1).run
        [(0, Env.quiet), (0, Env.deadPeer), (0, Env.deadPeer),
         (0, Env.deadPeer)]).sessions.map (fun s => s.pc)
      = [PC.naming]) ∧
    ((((System.start 1).run
        [(0, Env.quiet), (0, Env.deadPeer), (0, Env.deadPeer),
         (0, Env.deadPeer)]).world.out.filter
          (fun c => decide (c.data = CheckName.prompt))).length = 3) ∧
    (((System.start 1).run
        [(0, Env.quiet), (0, { readErr := some "EOF".toList }),
         (0, { readErr := some "EOF".toList })]).sessions.map (fun s => s.pc)
      = [PC.naming]) ∧
    (((System.start 1).run
        [(0, Env.quiet), (0, { w0 := some "EPIPE".toList }), (0, Env.typing "alice\n"),
         (0, Env.quiet), (0, Env.quiet)]).world.members
      = [⟨0, "alice".toList, 0⟩]) ∧
    ((((System.start 1).run
        [(0, Env.quiet), (0, { w0 := some "EPIPE".toList }), (0, Env.typing "alice\n"),
         (0, Env.quiet), (0, Env.quiet)]).world.out.filter
          (fun c => decide (c.data = CheckName.prompt))).length = 2) := by
  decide

/-- One turn of the naming loop of a running server.  When the prompt write of
`CheckName` fails, `CheckName` returns writingError, which is neither
emptyNameError nor alreadyExistsError, and leaves the table unchanged; the
loop has no exit for it: it sends "Please try again." and stays in the loop,
where its next turn calls `CheckName` again.  Whatever happens during a turn,
the session either stays in the loop or leaves it for `AddMember` with a
non-empty name that `CheckName` returned without error; the turn itself never
changes the table. -/
theorem naming_loop_failed_prompt_write (env : Env) (w : World) (s : Session)
    (hpc : s.pc = PC.naming) (hrun : w.crashed = false) :
    (∀ e, env.w0 = some e →
      (CheckName s.conn w.members ⟨env.w0, env.input, env.readErr⟩).err
        = errors.New "writingError".toList ∧
      errors.New "writingError".toList ≠ errors.New "emptyNameError".toList ∧
      errors.New "writingError".toList ≠ errors.New "alreadyExistsError".toList ∧
      (CheckName s.conn w.members ⟨env.w0, env.input, env.readErr⟩).members = w.members ∧
      (handleConnection.step env w s).2.pc = PC.naming ∧
      (handleConnection.step env w s).1.out
        = w.out ++ [⟨s.conn, CheckName.prompt, some e⟩,
                    ⟨s.conn, red ++ "Please try again.\n".toList ++ reset, env.w1⟩]) ∧
    (handleConnection.step env w s).1.members = w.members ∧
    ((handleConnection.step env w s).2.pc = PC.naming ∨
      ((handleConnection.step env w s).2.pc = PC.inAddMember AddMember.PC.polling ∧
       (CheckName s.conn w.members ⟨env.w0, env.input, env.readErr⟩).err = none ∧
       (handleConnection.step env w s).2.memberName
         = (CheckName s.conn w.members ⟨env.w0, env.input, env.readErr⟩).name ∧
       (handleConnection.step env w s).2.memberName ≠ [])) := by
  have hmem : ∀ io, (CheckName s.conn w.members io).members = w.members := by
    intro io
    unfold CheckName
    split
    · rfl
    · dsimp only
      split
      · rfl
      · split <;> rfl
  have hpm : ∀ io ne, (promptOnce s.conn w.members io ne).members = w.members := by
    intro io ne
    have := hmem io
    unfold promptOnce
    dsimp only
    split <;> simpa using this
  have hpn : ∀ io ne, (promptOnce s.conn w.members io ne).name
      = (CheckName s.conn w.members io).name := by
    intro io ne
    unfold promptOnce
    dsimp only
    split <;> rfl
  have hstep : handleConnection.step env w s
      = (let r := promptOnce s.conn w.members ⟨env.w0, env.input, env.readErr⟩ env.w1
         ({ w with members := r.members, out := w.out ++ r.writes },
          { s with memberName := r.name,
                   pc := if r.name = [] then PC.naming else PC.inAddMember AddMember.PC.polling })) := by
    unfold handleConnection.step
    simp [hrun, hpc]
  refine ⟨?_, ?_, ?_⟩
  · intro e he
    have hck : CheckName s.conn w.members ⟨env.w0, env.input, env.readErr⟩
        = ⟨[], errors.New "writingError".toList, w.members,
            [⟨s.conn, CheckName.prompt, some e⟩]⟩ := by
      simp [CheckName, he]
    refine ⟨by rw [hck], by decide, by decide, by rw [hck], ?_, ?_⟩
    · rw [hstep]
      simp [promptOnce, hck, errors.New]
    · rw [hstep]
      simp [promptOnce, hck, errors.New, retryNotice]
  · rw [hstep]
    exact hpm _ _
  · rw [hstep]
    dsimp only
    rw [hpn]
    by_cases hn : (CheckName s.conn w.members ⟨env.w0, env.input, env.readErr⟩).name = []
    · left; simp [hn]
    · right
      refine ⟨by simp [hn], ?_, rfl, hn⟩
      revert hn
      unfold CheckName
      split
      · intro h; exact absurd rfl h
      · dsimp only
        split
        · intro h; exact absurd rfl h
        · split
          · intro h; exact absurd rfl h
          · intro _; rfl

/-- While every prompt write fails the naming loop never ends: after any
number of turns the session is still in the loop, the server still runs and
the table is what it was. -/
theorem naming_loop_never_ends_while_prompt_write_fails :
    ∀ (envs : List Env), (∀ env ∈ envs, ∃ e, env.w0 = some e) →
      ∀ (w : World) (s : Session), s.pc = PC.naming → w.crashed = false →
        (handleConnection.steps envs w s).2.pc = PC.naming ∧
        (handleConnection.steps envs w s).1.members = w.members ∧
        (handleConnection.steps envs w s).1.crashed = false := by
  intro envs
  induction envs with
  | nil => intro _ w s hpc hrun; exact ⟨hpc, rfl, hrun⟩
  | cons env rest ih =>
    intro hall w s hpc hrun
    obtain ⟨e, he⟩ := hall env (List.mem_cons_self _ _)
    have h := naming_loop_failed_prompt_write env w s hpc hrun
    have hcr : (handleConnection.step env w s).1.crashed = false := by
      simp [handleConnection.step, hrun, hpc]
    have := ih (fun env' h' => hall env' (List.mem_cons_of_mem _ h'))
      (handleConnection.step env w s).1 (handleConnection.step env w s).2
      (h.1 e he).2.2.2.2.1 hcr
    simp only [handleConnection.steps]
    exact ⟨this.1, by rw [this.2.1, h.2.1], this.2.2⟩

/-! ## RemoveMember -/

/-- The prefix already visited by the loop of `RemoveMember` is kept as it is. -/
theorem RemoveMember.loop_append (id : Int) :
    ∀ (rest done : List Member),
      RemoveMember.loop id done rest = done ++ RemoveMember.loop id [] rest := by
  intro rest
  induction rest with
  | nil => intro done; simp [RemoveMember.loop]
  | cons member rest ih =>
    intro done
    by_cases h : id = member.ID
    · simp [RemoveMember.loop, h]
    · simp only [RemoveMember.loop, h, if_false, List.nil_append]
      rw [ih (done ++ [member]), ih [member]]
      simp

/-- `RemoveMember` on a non-empty slice: drop the head when it has the id,
otherwise keep it and go on. -/
theorem RemoveMember_cons (id : Int) (member : Member) (rest : List Member) :
    RemoveMember id (member :: rest)
      = if id = member.ID then rest else member :: RemoveMember id rest := by
  unfold RemoveMember
  by_cases h : id = member.ID
  · simp [RemoveMember.loop, h]
  · simp only [RemoveMember.loop, h, if_false, List.nil_append]
    rw [RemoveMember.loop_append]
    simp

/-- A slice in which no member has the id is returned as it is. -/
theorem RemoveMember_absent (id : Int) :
    ∀ members : List Member, (∀ m ∈ members, m.ID ≠ id) → RemoveMember id members = members := by
  intro members
  induction members with
  | nil => intro _; rfl
  | cons member rest ih =>
    intro h
    have h1 : ¬ id = member.ID := fun e => h member (List.mem_cons_self _ _) e.symm
    rw [RemoveMember_cons, if_neg h1, ih (fun m hm => h m (List.mem_cons_of_mem _ hm))]

/-- With pairwise distinct IDs, `RemoveMember` keeps exactly the members whose
ID differs from the id, in their order. -/
theorem RemoveMember_eq_filter (id : Int) :
    ∀ members : List Member, (members.map (fun m => m.ID)).Nodup →
      RemoveMember id members = members.filter (fun m => decide (m.ID ≠ id)) := by
  intro members
  induction members with
  | nil => intro _; rfl
  | cons member rest ih =>
    intro hnd
    rw [List.map_cons, List.nodup_cons] at hnd
    rw [RemoveMember_cons]
    by_cases h : id = member.ID
    · have hrest : ∀ m ∈ rest, m.ID ≠ id := by
        intro m hm e
        exact hnd.1 (List.mem_map.2 ⟨m, hm, by rw [e, h]⟩)
      rw [if_pos h, List.filter_cons_of_neg (by simp [h])]
      symm
      rw [List.filter_eq_self]
      intro m hm
      simpa using hrest m hm
    · have h' : member.ID ≠ id := fun e => h e.symm
      rw [if_neg h, List.filter_cons_of_pos (by simpa using h'), ih hnd.2]

/-- C7: for every table with pairwise distinct IDs and every id: when no member
has the id, `RemoveMember` returns the table unchanged; when a member `m` has
it, the result is the table with that one entry erased, which is the list of
all members with another ID in their original order, one entry shorter and
without `m`; and removing the same id a second time changes nothing. -/
theorem RemoveMember_deletes_by_id (id : Int) (members : List Member)
    (hnd : (members.map (fun m => m.ID)).Nodup) :
    ((∀ m ∈ members, m.ID ≠ id) → RemoveMember id members = members) ∧
    (∀ m ∈ members, m.ID = id →
      RemoveMember id members = members.erase m ∧
      RemoveMember id members = members.filter (fun x => decide (x.ID ≠ id)) ∧
      m ∉ RemoveMember id members ∧
      (RemoveMember id members).length + 1 = members.length) ∧
    RemoveMember id (RemoveMember id members) = RemoveMember id members := by
  have hfilter := RemoveMember_eq_filter id members hnd
  have hgone : ∀ x ∈ RemoveMember id members, x.ID ≠ id := by
    intro x hx
    rw [hfilter] at hx
    simpa using (List.mem_filter.1 hx).2
  refine ⟨RemoveMember_absent id members, ?_, RemoveMember_absent id _ hgone⟩
  intro m hm hid
  have herase : ∀ (ms : List Member), (ms.map (fun x => x.ID)).Nodup → m ∈ ms →
      RemoveMember id ms = ms.erase m := by
    intro ms
    induction ms with
    | nil => intro _ h; simp at h
    | cons member rest ih =>
      intro hnd' hmem
      rw [List.map_cons, List.nodup_cons] at hnd'
      rw [RemoveMember_cons]
      by_cases h : id = member.ID
      · have hmm : member = m := by
          rcases List.mem_cons.1 hmem with e | hin
          · exact e.symm
          · exact absurd (List.mem_map.2 ⟨m, hin, by rw [hid, h]⟩) hnd'.1
        rw [if_pos h, hmm, List.erase_cons_head]
      · have hne : member ≠ m := fun e => h (by rw [e, hid])
        have hin : m ∈ rest := by
          rcases List.mem_cons.1 hmem with e | hin
          · exact absurd e.symm hne
          · exact hin
        rw [if_neg h, List.erase_cons_tail (by simpa using hne), ih hnd'.2 hin]
  have he := herase members hnd hm
  refine ⟨he, hfilter, fun hin => hgone m hin hid, ?_⟩
  rw [he, List.length_erase_of_mem hm]
  have : 0 < members.length := List.length_pos_of_mem hm
  omega

/-- C7 at a concrete table: ann, bob and cat with ids 0, 1, 2; bob is removed,
twice. -/
theorem RemoveMember_deletes_by_id_witness :
    RemoveMember 1 [⟨0, "ann".toList, 0⟩, ⟨1, "bob".toList, 1⟩, ⟨2, "cat".toList, 2⟩]
      = [⟨0, "ann".toList, 0⟩, ⟨2, "cat".toList, 2⟩] ∧
    RemoveMember 1
        (RemoveMember 1 [⟨0, "ann".toList, 0⟩, ⟨1, "bob".toList, 1⟩, ⟨2, "cat".toList, 2⟩])
      = RemoveMember 1 [⟨0, "ann".toList, 0⟩, ⟨1, "bob".toList, 1⟩, ⟨2, "cat".toList, 2⟩] :=
  ⟨by decide,
   (RemoveMember_deletes_by_id 1
      [⟨0, "ann".toList, 0⟩, ⟨1, "bob".toList, 1⟩, ⟨2, "cat".toList, 2⟩] (by decide)).2.2⟩

/-! ## The transcript -/

/-- When every call of a sequence of `LogMessages` calls succeeds, an existing
file holds what it held before followed by the messages, in order. -/
theorem logAll_ok :
    ∀ (calls : List (LogFault × GoString)) (c : GoString),
      (∀ e ∈ (logAll calls (some c)).2, e = none) →
      (logAll calls (some c)).1 = some (c ++ (calls.map Prod.snd).flatten) := by
  intro calls
  induction calls with
  | nil =>
    intro c _
    simp [logAll]
  | cons call rest ih =>
    intro c h
    obtain ⟨fault, message⟩ := call
    have h0 : (LogMessages fault message (some c)).2 = none :=
      h _ (by simp [logAll])
    have hfile : (LogMessages fault message (some c)).1 = some (c ++ message) := by
      cases fault <;> simp_all [LogMessages]
    have hrest : ∀ e ∈ (logAll rest (some (c ++ message))).2, e = none := by
      intro e he
      refine h e ?_
      simp only [logAll, hfile, List.mem_cons]
      exact Or.inr he
    have := ih _ hrest
    simp only [logAll, List.map_cons, List.flatten_cons, hfile]
    rw [this]
    simp

/-- C9: with the transcript file as a string: after `ClearMessageHistory`
succeeds `GetMessageHistory` returns the empty string and no error; after
`LogMessages(x)` succeeds on a file holding `c` (on a missing file: holding
nothing) it returns exactly `c ++ x`; and after a clear and a sequence of
appends that all succeed it returns the concatenation of the messages. -/
theorem transcript_clear_append_read :
    (∀ fault file, (ClearMessageHistory fault file).2 = none →
      GetMessageHistory none (ClearMessageHistory fault file).1 = ([], none)) ∧
    (∀ fault c x, (LogMessages fault x (some c)).2 = none →
      GetMessageHistory none (LogMessages fault x (some c)).1 = (c ++ x, none)) ∧
    (∀ fault x, (LogMessages fault x none).2 = none →
      GetMessageHistory none (LogMessages fault x none).1 = (x, none)) ∧
    (∀ fault file calls, (ClearMessageHistory fault file).2 = none →
      (∀ e ∈ (logAll calls (ClearMessageHistory fault file).1).2, e = none) →
      GetMessageHistory none (logAll calls (ClearMessageHistory fault file).1).1
        = ((calls.map Prod.snd).flatten, none)) := by
  refine ⟨?_, ?_, ?_, ?_⟩
  · intro fault file h
    cases fault <;> simp_all [ClearMessageHistory, GetMessageHistory]
  · intro fault c x h
    cases fault <;> simp_all [LogMessages, GetMessageHistory]
  · intro fault x h
    cases fault <;> simp_all [LogMessages, GetMessageHistory]
  · intro fault file calls h hall
    have hclear : (ClearMessageHistory fault file).1 = some [] := by
      cases fault <;> simp_all [ClearMessageHistory]
    rw [hclear] at hall ⊢
    rw [logAll_ok calls [] hall]
    simp [GetMessageHistory]

/-- C9 at a concrete run: the file holds "old", is cleared, and "a" and "bc"
are appended. -/
theorem transcript_clear_append_read_witness :
    GetMessageHistory none
        (logAll [(LogFault.ok, "a".toList), (LogFault.ok, "bc".toList)]
          (ClearMessageHistory ClearFault.ok (some "old".toList)).1).1
      = ("abc".toList, none) :=
  transcript_clear_append_read.2.2.2 ClearFault.ok (some "old".toList)
    [(LogFault.ok, "a".toList), (LogFault.ok, "bc".toList)] rfl (by decide)

/-! ## What the message loop broadcasts and what it logs -/

/-- The trimmed text is a contiguous part of the text. -/
theorem strings.TrimSpace_infix (s : GoString) : strings.TrimSpace s <:+: s := by
  unfold strings.TrimSpace
  have h1 : ((s.dropWhile strings.isSpace).reverse.dropWhile strings.isSpace).reverse
      <+: s.dropWhile strings.isSpace := by
    have := List.dropWhile_suffix strings.isSpace
      (l := (s.dropWhile strings.isSpace).reverse)
    have h := List.reverse_prefix.2 this
    simpa using h
  exact h1.isInfix.trans (List.dropWhile_suffix strings.isSpace).isInfix

/-- While no write fails up to position `i + k`, the broadcast loop started at
position `i` writes the message and then the prompt to the member at offset
`k`, when that member's ID differs from `senderID`. -/
theorem BroadcastMessage.loop_delivers (senderID : Int) (message : GoString)
    (now : Nat → GoString) (wr : Nat → Nat → error) :
    ∀ (rest : List Member) (i k : Nat) (m : Member),
      (∀ j n, i ≤ j → j ≤ i + k → wr j n = none) →
      rest[k]? = some m → m.ID ≠ senderID →
      (i + k, (⟨m.Connection, message, none⟩ : WriteCall))
        ∈ BroadcastMessage.loop senderID message now wr i rest ∧
      (i + k, (⟨m.Connection, promptLine (now (i + k)) m.Name, none⟩ : WriteCall))
        ∈ BroadcastMessage.loop senderID message now wr i rest := by
  intro rest
  induction rest with
  | nil => intro i k m _ h; simp at h
  | cons member rest ih =>
    intro i k m hok hk hid
    have h0 : wr i 0 = none := hok i 0 (Nat.le_refl _) (Nat.le_add_right _ _)
    have h1 : wr i 1 = none := hok i 1 (Nat.le_refl _) (Nat.le_add_right _ _)
    cases k with
    | zero =>
      simp only [List.getElem?_cons_zero, Option.some.injEq] at hk
      subst hk
      unfold BroadcastMessage.loop
      simp [hid, h0, h1]
    | succ k =>
      simp only [List.getElem?_cons_succ] at hk
      have hok' : ∀ j n, i + 1 ≤ j → j ≤ i + 1 + k → wr j n = none :=
        fun j n h1 h2 => hok j n (by omega) (by omega)
      have := ih (i + 1) k m hok' hk hid
      have e : i + 1 + k = i + (k + 1) := by omega
      rw [e] at this
      unfold BroadcastMessage.loop
      by_cases hm : member.ID = senderID
      · simp only [hm, ne_eq, not_true_eq_false, if_false]
        exact this
      · simp only [ne_eq, hm, not_false_eq_true, if_true, h0, h1, List.mem_cons]
        exact ⟨Or.inr (Or.inr this.1), Or.inr (Or.inr this.2)⟩


/-- The dispatch of a line leaves the transcript alone unless the line is a
chat line. -/
theorem handleConnection.dispatch_chatLog (formatted : GoString) (env : Env) (w : World)
    (s : Session) (h : (handleConnection.dispatch formatted env w s).1.chatLog ≠ w.chatLog) :
    strings.TrimSpace env.input ≠ [] ∧ strings.TrimSpace env.input ≠ "@help".toList ∧
    strings.TrimSpace env.input ≠ "@exit".toList ∧
    strings.TrimSpace env.input ≠ "@rename".toList := by
  unfold handleConnection.dispatch at h
  by_cases h0 : strings.TrimSpace env.input = []
  · simp [h0] at h
  · by_cases h1 : strings.TrimSpace env.input = "@help".toList
    · simp [h1] at h
    · by_cases h2 : strings.TrimSpace env.input = "@exit".toList
      · simp [h2] at h
      · by_cases h3 : strings.TrimSpace env.input = "@rename".toList
        · simp [h3] at h
        · exact ⟨h0, h1, h2, h3⟩

/-- No step of `handleConnection` outside the dispatch of a line read in the
message loop touches the transcript. -/
theorem handleConnection.step_chatLog (env : Env) (w : World) (s : Session)
    (h : (handleConnection.step env w s).1.chatLog ≠ w.chatLog) :
    ∃ formatted, s.pc = PC.reading formatted ∧ env.readErr = none ∧
      (handleConnection.dispatch formatted env w s).1.chatLog ≠ w.chatLog := by
  obtain ⟨conn, id, name, pc⟩ := s
  cases hc : w.crashed with
  | true =>
    exfalso; apply h
    simp [handleConnection.step, hc]
  | false =>
    cases pc with
    | connecting =>
      exfalso; apply h
      simp only [handleConnection.step, hc, Bool.false_eq_true, if_false]
      split <;> rfl
    | naming =>
      exfalso; apply h
      simp only [handleConnection.step, hc, Bool.false_eq_true, if_false]
    | inAddMember a =>
      exfalso; apply h
      simp only [handleConnection.step, hc, Bool.false_eq_true, if_false]
      split <;> rfl
    | replaying =>
      exfalso; apply h
      simp only [handleConnection.step, hc, Bool.false_eq_true, if_false]
      split
      · rfl
      · split <;> rfl
    | active =>
      exfalso; apply h
      simp only [handleConnection.step, hc, Bool.false_eq_true, if_false]
      split <;> rfl
    | reading formatted =>
      simp only [handleConnection.step, hc, Bool.false_eq_true, if_false] at h
      cases h1 : env.readErr with
      | some e => rw [h1] at h; exact absurd rfl h
      | none =>
        rw [h1] at h
        exact ⟨formatted, rfl, rfl, h⟩
    | inRename r =>
      exfalso; apply h
      simp only [handleConnection.step, hc, Bool.false_eq_true, if_false]
      split <;> rfl
    | closing =>
      exfalso; apply h
      simp only [handleConnection.step, hc, Bool.false_eq_true, if_false]
    | closed =>
      exfalso; apply h
      simp only [handleConnection.step, hc, Bool.false_eq_true, if_false]


/-- What the message loop broadcasts and what it logs, in a running server, for
every step of a session and every behaviour of the peers, the clock and the
file system:
(1) the transcript changes only when a session that waits for a line reads
one that after trimming is neither empty nor "@help", "@exit" or "@rename";
(2) a turn starts by writing the prompt with the time taken then, and keeps
that time for the line it reads;
(3) the join notice and (4, 5) the leave notices (after the loop, and on
"@exit") are handed to `BroadcastMessage` with the session's own id as sender
and the transcript is left as it is;
(6) any other line is handed once to `BroadcastMessage`, as a newline followed
by the chat line, and the chat line is handed once to `LogMessages`, whose
result is the transcript afterwards; the chat line is the prompt of the sender
with the time of the turn, followed by the bytes read; and a member whose ID
differs from the sender's is written the newline and the chat line whenever
no write to a member at or before its position fails. -/
theorem message_loop_transcript (env : Env) (w : World) (s : Session)
    (hrun : w.crashed = false) :
    ((handleConnection.step env w s).1.chatLog ≠ w.chatLog →
      ∃ formatted, s.pc = PC.reading formatted ∧ env.readErr = none ∧
      strings.TrimSpace env.input ≠ [] ∧ strings.TrimSpace env.input ≠ "@help".toList ∧
      strings.TrimSpace env.input ≠ "@exit".toList ∧
      strings.TrimSpace env.input ≠ "@rename".toList) ∧
    (s.pc = PC.active → env.w0 = none →
      (handleConnection.step env w s).1.out
        = w.out ++ [⟨s.conn, promptLine env.now s.memberName, none⟩] ∧
      (handleConnection.step env w s).2.pc = PC.reading env.now) ∧
    (s.pc = PC.replaying → env.w0 = none →
      ∀ history, GetMessageHistory env.histFault w.chatLog = (history, none) →
      (handleConnection.step env w s).1.out
        = w.out ++ [⟨s.conn, history, none⟩] ++
            broadcastWrites s.memberID (joinNotice s.memberName) w.members env ∧
      (handleConnection.step env w s).1.chatLog = w.chatLog) ∧
    (s.pc = PC.closing →
      (handleConnection.step env w s).1.out
        = w.out ++ broadcastWrites s.memberID (leaveNotice s.memberName) w.members env ∧
      (handleConnection.step env w s).1.chatLog = w.chatLog) ∧
    (∀ formatted, s.pc = PC.reading formatted → env.readErr = none →
      strings.TrimSpace env.input = "@exit".toList →
      (handleConnection.step env w s).1.out
        = w.out ++ broadcastWrites s.memberID (leaveNotice s.memberName) w.members env ∧
      (handleConnection.step env w s).1.chatLog = w.chatLog) ∧
    (∀ formatted, s.pc = PC.reading formatted → env.readErr = none →
      strings.TrimSpace env.input ≠ [] → strings.TrimSpace env.input ≠ "@help".toList →
      strings.TrimSpace env.input ≠ "@exit".toList →
      strings.TrimSpace env.input ≠ "@rename".toList →
      (handleConnection.step env w s).1.out
        = w.out ++ broadcastWrites s.memberID
              ("\n".toList ++ chatLine formatted s.memberName env.input) w.members env ∧
      (handleConnection.step env w s).1.chatLog
        = (LogMessages env.logFault (chatLine formatted s.memberName env.input) w.chatLog).1 ∧
      chatLine formatted s.memberName env.input
        = "\x1b[36m[".toList ++ formatted ++ "]\x1b[0m\x1b[32m[".toList ++ s.memberName ++
            "]:\x1b[0m".toList ++ env.input ∧
      (∀ i m, w.members[i]? = some m → m.ID ≠ s.memberID →
        (∀ j n, j ≤ i → env.bwr j n = none) →
        (⟨m.Connection, "\n".toList ++ chatLine formatted s.memberName env.input, none⟩ :
            WriteCall) ∈ (handleConnection.step env w s).1.out)) := by
  have hreading : ∀ formatted, s.pc = PC.reading formatted → env.readErr = none →
      handleConnection.step env w s = handleConnection.dispatch formatted env w s := by
    intro formatted hpc h1
    simp only [handleConnection.step, hrun, Bool.false_eq_true, if_false, hpc, h1]
  refine ⟨?_, ?_, ?_, ?_, ?_, ?_⟩
  · intro h
    obtain ⟨formatted, hpc, h1, hd⟩ := handleConnection.step_chatLog env w s h
    exact ⟨formatted, hpc, h1, handleConnection.dispatch_chatLog formatted env w s hd⟩
  · intro hpc h0
    simp [handleConnection.step, hrun, hpc, h0]
  · intro hpc h0 history hh
    simp [handleConnection.step, hrun, hpc, h0, hh]
  · intro hpc
    simp [handleConnection.step, hrun, hpc]
  · intro formatted hpc h1 hx
    rw [hreading formatted hpc h1]
    unfold handleConnection.dispatch
    simp only [hx]
    refine ⟨?_, ?_⟩ <;> simp
  · intro formatted hpc h1 hn0 hn1 hn2 hn3
    rw [hreading formatted hpc h1]
    have hd : handleConnection.dispatch formatted env w s
        = ({ w with
              out := w.out ++
                broadcastWrites s.memberID
                  ("\n".toList ++ chatLine formatted s.memberName env.input) w.members env,
              chatLog :=
                (LogMessages env.logFault (chatLine formatted s.memberName env.input)
                  w.chatLog).1 }, { s with pc := PC.active }) := by
      unfold handleConnection.dispatch
      simp only [ne_eq, hn0, not_false_eq_true, if_true, hn1, hn2, hn3, if_false]
    rw [hd]
    refine ⟨rfl, rfl, ?_, ?_⟩
    · simp [chatLine, promptLine, cyan, reset, green]
    · intro i m hm hid hok
      have := (BroadcastMessage.loop_delivers s.memberID
        ("\n".toList ++ chatLine formatted s.memberName env.input) env.bnow env.bwr
        w.members 0 i m (fun j n _ hj => hok j n (by omega)) hm hid).1
      apply List.mem_append_right
      unfold broadcastWrites BroadcastMessage
      exact List.mem_map.2 ⟨_, by simpa using this, rfl⟩

/-! ## What holds when a call is not interleaved with other sessions -/

/-- A call of `AddMember` whose guard and append run without another session
in between never takes a table of at most ten members beyond ten: at ten
members the guard keeps the call waiting and the table unchanged. -/
theorem AddMember_uninterrupted_keeps_capacity (name : GoString) (id : Int) (connection : Conn)
    (noticeErr : error) (members : List Member) (hcap : members.length ≤ 10) :
    (members.length = 10 →
      (AddMember.step name id connection noticeErr members AddMember.PC.polling).1 = members ∧
      (AddMember.step name id connection noticeErr members AddMember.PC.polling).2.1
        ≠ AddMember.PC.locking) ∧
    ((AddMember.step name id connection noticeErr members AddMember.PC.polling).2.1
        = AddMember.PC.locking →
      (AddMember.step name id connection noticeErr
        (AddMember.step name id connection noticeErr members AddMember.PC.polling).1
        AddMember.PC.locking).1 = members ++ [⟨id, name, connection⟩] ∧
      (members ++ [(⟨id, name, connection⟩ : Member)]).length ≤ 10) := by
  by_cases h : members.length = 10
  · refine ⟨fun _ => ?_, fun hl => ?_⟩
    · cases noticeErr <;> simp [AddMember.step, h]
    · cases noticeErr <;> simp [AddMember.step, h] at hl
  · refine ⟨fun h10 => absurd h10 h, fun _ => ?_⟩
    simp only [AddMember.step, h, if_false, List.length_append, List.length_singleton,
      true_and]
    omega

/-- A name that `CheckName` has accepted, appended before any other session
changes the table, keeps the names of the table pairwise distinct. -/
theorem CheckName_then_append_keeps_names_distinct (connection : Conn) (id : Int)
    (members : List Member) (io : PromptIO)
    (hnd : (members.map (fun m => m.Name)).Nodup)
    (hok : (CheckName connection members io).err = none) :
    ((members ++ [(⟨id, (CheckName connection members io).name, connection⟩ : Member)]).map
      (fun m => m.Name)).Nodup := by
  have hfree : ¬ ∃ m ∈ members, m.Name = (CheckName connection members io).name := by
    intro hex
    revert hok hex
    unfold CheckName
    split
    · intro h; simp [errors.New] at h
    · dsimp only
      split
      · intro h; simp [errors.New] at h
      · rename_i hb
        split
        · intro h; simp [errors.New] at h
        · intro _ hex
          exact hb ((CheckName.alreadyExists_iff _ members).2 hex)
  rw [List.map_append, List.nodup_append]
  refine ⟨hnd, by simp, ?_⟩
  intro a ha hb
  simp only [List.map_cons, List.map_nil, List.mem_singleton] at hb
  obtain ⟨m, hm, hma⟩ := List.mem_map.1 ha
  exact hfree ⟨m, hm, by rw [hma, hb]⟩

/-- The search of `Rename` stops at a member that has the id. -/
theorem Rename.search_found (id : Int) :
    ∀ (rest : List Member) (b i : Nat), Rename.search id b rest = some i →
      ∃ k m, i = b + k ∧ rest[k]? = some m ∧ m.ID = id := by
  intro rest
  induction rest with
  | nil => intro b i h; simp [Rename.search] at h
  | cons member rest ih =>
    intro b i h
    unfold Rename.search at h
    by_cases hid : id = member.ID
    · simp only [hid, if_true, Option.some.injEq] at h
      exact ⟨0, member, by omega, by simp, hid.symm⟩
    · simp only [hid, if_false] at h
      obtain ⟨k, m, h1, h2, h3⟩ := ih (b + 1) i h
      exact ⟨k + 1, m, by omega, by simpa using h2, h3⟩

/-- When the table does not change between the search of `Rename` and its
store, the store succeeds, the entry it writes is the one with the id, and
every other position of the table is left as it was. -/
theorem Rename_uninterrupted_updates_own_entry (id : Int) (memberName : GoString)
    (members : List Member) (i : Nat) (hs : Rename.search id 0 members = some i) :
    ∃ m, members[i]? = some m ∧ m.ID = id ∧
      Rename.store i memberName members
        = some (members.set i { m with Name := memberName }) ∧
      ∀ j, j ≠ i → (members.set i { m with Name := memberName })[j]? = members[j]? := by
  obtain ⟨k, m, h1, h2, h3⟩ := Rename.search_found id members 0 i hs
  have hk : i = k := by omega
  subst hk
  refine ⟨m, h2, h3, by simp [Rename.store, h2], ?_⟩
  intro j hj
  rw [List.getElem?_set_ne (Ne.symm hj)]

/-! ## Interleavings of sessions -/

set_option maxRecDepth 100000

/-- C1, the code at a failing interleaving: two sessions on a fresh server.
Each is greeted and answers the name prompt with "alice"; both calls of
`CheckName` see the empty table and return "alice" without error.  Each then
runs `AddMember`.  The table ends with two members named "alice", and no
"already used" notice was ever written. -/
theorem two_sessions_both_enter_as_alice :
    (((System.start 2).run
        (Schedule.connect 0 "alice\n" ++ Schedule.connect 1 "alice\n")).sessions.map
          (fun s => (s.memberName, s.pc))
      = [("alice".toList, PC.inAddMember AddMember.PC.polling),
         ("alice".toList, PC.inAddMember AddMember.PC.polling)]) ∧
    (((System.start 2).run
        (Schedule.connect 0 "alice\n" ++ Schedule.connect 1 "alice\n" ++
          Schedule.addMember 0 ++ Schedule.addMember 1)).world.members
      = [⟨0, "alice".toList, 0⟩, ⟨1, "alice".toList, 1⟩]) ∧
    ((((System.start 2).run
        (Schedule.connect 0 "alice\n" ++ Schedule.connect 1 "alice\n" ++
          Schedule.addMember 0 ++ Schedule.addMember 1)).world.out.filter
          (fun c => decide (c.data = retryNotice "alreadyExistsError".toList)))
      = []) := by
  decide

/-- When the first session has been added before the second one answers the
prompt, the second one is told that the name is already used and stays in
the naming loop. -/
theorem second_alice_rejected_when_first_is_added :
    (((System.start 2).run
        (Schedule.connect 0 "alice\n" ++ Schedule.addMember 0 ++
          Schedule.connect 1 "alice\n")).sessions.map (fun s => (s.memberName, s.pc))
      = [("alice".toList, PC.replaying), ([], PC.naming)]) ∧
    (((System.start 2).run
        (Schedule.connect 0 "alice\n" ++ Schedule.addMember 0 ++
          Schedule.connect 1 "alice\n")).world.out.getLast?
      = some ⟨1, retryNotice "alreadyExistsError".toList, none⟩) := by
  decide

/-- C2, the code at a failing interleaving: eleven sessions on a fresh server.
Nine are added one after the other.  Sessions 9 and 10 then both evaluate the
guard `len(*members) == 10` while the table holds nine members, so both pass
it; each then appends.  The table ends with eleven members. -/
theorem two_sessions_pass_the_capacity_guard :
    (((System.start 11).run Schedule.nineMembers).world.members.length = 9) ∧
    ((((System.start 11).run Schedule.twoPastTheGuard).sessions.drop 9).map (fun s => s.pc)
      = [PC.inAddMember AddMember.PC.locking, PC.inAddMember AddMember.PC.locking]) ∧
    (((System.start 11).run Schedule.twoPastTheGuard).world.members.length = 9) ∧
    (((System.start 11).run
        (Schedule.twoPastTheGuard ++ [(9, Env.quiet), (10, Env.quiet)])).world.members.length
      = 11) := by
  decide

/-- C8, the code at a failing interleaving: ann (id 0), bob (id 1) and cat
(id 2) are in the room.  Bob sends "@rename"; `Rename` finds him at index 1 and
prompts.  While the prompt waits, ann sends "@exit" and is removed, so bob
moves to index 0 and cat to index 1.  Bob answers "rob": `CheckName` accepts it
and `Rename` stores it at index 1.  In the table bob is still "bob" and cat
has become "rob"; bob's session goes on under the name "rob". -/
theorem rename_writes_to_stale_index :
    (((System.start 3).run Schedule.renameWhileAnnLeaves).world.members
      = [⟨1, "bob".toList, 1⟩, ⟨2, "rob".toList, 2⟩]) ∧
    (((System.start 3).run Schedule.renameWhileAnnLeaves).sessions.map
        (fun s => (s.memberID, s.memberName, s.pc))
      = [(0, "ann".toList, PC.closed), (1, "rob".toList, PC.active),
         (2, "cat".toList, PC.active)]) := by
  decide

/-- C10, the code at a failing input: ann (id 0), bob (id 1) and cat (id 2) are
in the room on a fresh server, all three waiting for a line; the transcript is
empty and cat's prompt was written at 12:00.  Cat sends "hello"; the message
write to ann fails.  `BroadcastMessage` returns after that one failed call, so
nothing is written to bob, and `LogMessages` then appends the chat line: the
transcript holds a line that bob, who is still in the table, was never sent. -/
theorem chat_line_logged_but_not_sent_to_later_member :
    (((System.start 3).run Schedule.catReadyToSpeak).world.members
      = [⟨0, "ann".toList, 0⟩, ⟨1, "bob".toList, 1⟩, ⟨2, "cat".toList, 2⟩]) ∧
    (((System.start 3).run Schedule.catReadyToSpeak).sessions.map
        (fun s => (s.memberID, s.memberName, s.pc))
      = [(0, "ann".toList, PC.reading []), (1, "bob".toList, PC.reading []),
         (2, "cat".toList, PC.reading "12:00".toList)]) ∧
    (((System.start 3).run Schedule.catReadyToSpeak).world.chatLog = some []) ∧
    (((System.start 3).run
        (Schedule.catReadyToSpeak ++ [(2, Env.helloWhileFirstMemberIsUnreachable)])).world.out
      = ((System.start 3).run Schedule.catReadyToSpeak).world.out ++
          [⟨0, "\n\x1b[36m[12:00]\x1b[0m\x1b[32m[cat]:\x1b[0mhello\n".toList,
            some "EPIPE".toList⟩]) ∧
    (((System.start 3).run
        (Schedule.catReadyToSpeak ++ [(2, Env.helloWhileFirstMemberIsUnreachable)])).world.chatLog
      = some "\x1b[36m[12:00]\x1b[0m\x1b[32m[cat]:\x1b[0mhello\n".toList) ∧
    (((System.start 3).run
        (Schedule.catReadyToSpeak ++ [(2, Env.helloWhileFirstMemberIsUnreachable)])).world.members
      = [⟨0, "ann".toList, 0⟩, ⟨1, "bob".toList, 1⟩, ⟨2, "cat".toList, 2⟩]) := by
  decide

end NetCat
